import Mathlib

/-!
Verification of the uAMP-sim discrete-event simulation engine
(`src/uamp_sim.py`).  The definitions below are a shallow embedding of the
`Simulator` class: the publish/subscribe event bus, the module registry, the
priority event queue, the run loop that merges trace events with internally
generated events, and the interactive debug controller.

Collaborators of the engine that the repository keeps outside the shown
source (the trace reader, the `PriorityQueue` container, the `SimModule`
interface, the event classes) are modelled from their contracts in the
specification; each such definition carries a doc comment saying so.
-/

namespace UampSim

/-! ## Priority constants (`class Priority`, uamp_sim.py lines 15-19) -/

def Priority.DEBUG_FIRST : Nat := 0

def Priority.ALARM : Nat := 5

def Priority.TRACE : Nat := 10

def Priority.DEBUG_LAST : Nat := 1024

/-- `Simulator.EVENT_QUEUE_THRESHOLD` (uamp_sim.py line 23). -/
def EVENT_QUEUE_THRESHOLD : Nat := 100

/-! ## Event bus (`subscribe` / `broadcast`, uamp_sim.py lines 145-162)

Events broadcast on the bus carry an optional timestamp (`None` in Python
when unset).  Handlers and filters come from simulation modules, which are
external collaborators; a handler is identified here by a numeric id and a
filter is an arbitrary boolean predicate on events. -/

/-- An event as seen by the bus: `timestamp` is `none` when the Python
attribute is `None`; `event_type` is the tag from the event enumeration;
`id` identifies the concrete event object. -/
structure BusEvent where
  id : Nat
  timestamp : Option Nat
  event_type : Nat
deriving DecidableEq

/-- A `(event_filter, handler)` pair as stored by `subscribe`
(uamp_sim.py line 148); the handler is identified by a numeric id. -/
abbrev Listener := Option (BusEvent → Bool) × Nat

/-- `self.event_listeners`: a `defaultdict(deque)` keyed by event type,
modelled as an association list so that key creation is observable. -/
abbrev ListenerTable := List (Nat × List Listener)

def tblLookup : ListenerTable → Nat → Option (List Listener)
  | [], _ => none
  | (k, v) :: rest, t => if k = t then some v else tblLookup rest t

/-- Update the value stored at an existing key. -/
def tblSet : ListenerTable → Nat → List Listener → ListenerTable
  | [], k, v => [(k, v)]
  | (k', v') :: rest, k, v =>
    if k' = k then (k, v) :: rest else (k', v') :: tblSet rest k v

/-- Reading `self.event_listeners[t]` on a `defaultdict`: returns the stored
deque, inserting an empty deque first when the key is absent. -/
def tblGetCreate (tbl : ListenerTable) (k : Nat) : List Listener × ListenerTable :=
  match tblLookup tbl k with
  | some v => (v, tbl)
  | none => ([], tbl ++ [(k, [])])

/-- `Simulator.subscribe` (uamp_sim.py lines 145-148): ensure the key exists,
then append the `(event_filter, handler)` pair. -/
def subscribe (tbl : ListenerTable) (event_type : Nat)
    (event_filter : Option (BusEvent → Bool)) (handler : Nat) : ListenerTable :=
  let p := tblGetCreate tbl event_type
  tblSet p.2 event_type (p.1 ++ [(event_filter, handler)])

/-- Python truthiness of the `event.timestamp` attribute: `None` and `0`
are falsy, every other number is truthy (uamp_sim.py line 151 tests
`if event.timestamp:`). -/
def pyTruthy : Option Nat → Bool
  | none => false
  | some n => decide (n ≠ 0)

/-- Whether a listener's filter lets an event through: `not event_filter or
event_filter(event)` (uamp_sim.py line 161). -/
def matchF : Option (BusEvent → Bool) → BusEvent → Bool
  | none, _ => true
  | some f, e => f e

/-- The dispatch loop of `broadcast` (uamp_sim.py lines 159-162): visit the
listeners in order and record, in order, the handlers that get invoked. -/
def fanout : List Listener → BusEvent → List Nat
  | [], _ => []
  | (f, h) :: rest, e => if matchF f e then h :: fanout rest e else fanout rest e

/-- `Simulator.broadcast` (uamp_sim.py lines 150-162).  Returns the event as
dispatched (timestamp possibly stamped), the listener table after the
`defaultdict` read, and the ordered list of invoked handler ids; or the
`"Broadcasting event with invalid timestamp."` error. -/
def broadcast (tbl : ListenerTable) (current_time : Option Nat) (e : BusEvent) :
    Except String (BusEvent × ListenerTable × List Nat) :=
  if pyTruthy e.timestamp then
    if e.timestamp ≠ current_time then
      .error "Broadcasting event with invalid timestamp."
    else
      .ok (e, (tblGetCreate tbl e.event_type).2,
           fanout (tblGetCreate tbl e.event_type).1 e)
  else
    .ok ({ e with timestamp := current_time }, (tblGetCreate tbl e.event_type).2,
         fanout (tblGetCreate tbl e.event_type).1 { e with timestamp := current_time })

/-! ### Bus lemmas -/

lemma tblGetCreate_fst (tbl : ListenerTable) (k : Nat) :
    (tblGetCreate tbl k).1 = (tblLookup tbl k).getD [] := by
  unfold tblGetCreate
  cases tblLookup tbl k <;> simp

lemma tblLookup_append_single (tbl : ListenerTable) (k t : Nat) (v : List Listener)
    (h : t ≠ k) : tblLookup (tbl ++ [(k, v)]) t = tblLookup tbl t := by
  induction tbl with
  | nil => simp [tblLookup, Ne.symm h]
  | cons p rest ih =>
    obtain ⟨k', v'⟩ := p
    by_cases hk : k' = t <;> simp [tblLookup, hk, ih]

lemma tblGetCreate_snd_lookup (tbl : ListenerTable) (k t : Nat) (h : t ≠ k) :
    tblLookup (tblGetCreate tbl k).2 t = tblLookup tbl t := by
  unfold tblGetCreate
  cases hl : tblLookup tbl k with
  | some v => simp
  | none => simpa using tblLookup_append_single tbl k t [] h

lemma fanout_append (l₁ l₂ : List Listener) (e : BusEvent) :
    fanout (l₁ ++ l₂) e = fanout l₁ e ++ fanout l₂ e := by
  induction l₁ with
  | nil => simp [fanout]
  | cons p rest ih =>
    obtain ⟨f, h⟩ := p
    simp only [List.cons_append, fanout]
    split <;> simp [ih]

lemma fanout_eq_filter_map (l : List Listener) (e : BusEvent) :
    fanout l e = (l.filter (fun p => matchF p.1 e)).map Prod.snd := by
  induction l with
  | nil => simp [fanout]
  | cons p rest ih =>
    obtain ⟨f, h⟩ := p
    by_cases hm : matchF f e = true <;> simp [fanout, List.filter_cons, hm, ih]

lemma broadcast_ok_shape (tbl : ListenerTable) (ct : Option Nat) (e e' : BusEvent)
    (tbl' : ListenerTable) (inv : List Nat)
    (hok : broadcast tbl ct e = .ok (e', tbl', inv)) :
    e'.event_type = e.event_type ∧
    inv = fanout ((tblLookup tbl e.event_type).getD []) e' ∧
    tbl' = (tblGetCreate tbl e.event_type).2 := by
  unfold broadcast at hok
  split at hok
  · split at hok
    · simp at hok
    · simp only [Except.ok.injEq, Prod.mk.injEq] at hok
      obtain ⟨he, htbl, hinv⟩ := hok
      subst he htbl hinv
      exact ⟨rfl, by rw [tblGetCreate_fst], rfl⟩
  · simp only [Except.ok.injEq, Prod.mk.injEq] at hok
    obtain ⟨he, htbl, hinv⟩ := hok
    subst he htbl hinv
    exact ⟨rfl, by rw [tblGetCreate_fst], rfl⟩

/-! ### Claim C2 (corrected) -/

/-- C2 counterexample: the claim says an event that already carries a
timestamp differing from `current_time` makes `broadcast` fail.  The code
tests `if event.timestamp:` (Python truthiness), so an event carrying the
timestamp `0` — which is set, and differs from the current time `5` — is
silently re-stamped to `5` and broadcast succeeds instead of failing. -/
theorem broadcast_zero_timestamp_counterexample :
    (⟨1, some 0, 7⟩ : BusEvent).timestamp = some 0 ∧
    (some 0 : Option Nat) ≠ some 5 ∧
    broadcast [] (some 5) ⟨1, some 0, 7⟩ = .ok (⟨1, some 5, 7⟩, [(7, [])], []) :=
  ⟨rfl, by decide, rfl⟩

/-- C2 (amended): `broadcast` stamps the event with `current_time` whenever
its timestamp attribute is falsy — unset (`None`) **or equal to `0`** — and
proceeds; if the event carries a truthy (nonzero) timestamp that differs
from `current_time` it fails with the invalid-timestamp error; a truthy
preset timestamp equal to `current_time` is broadcast unchanged without
error. -/
theorem broadcast_timestamp_check (tbl : ListenerTable) (ct : Option Nat) (e : BusEvent) :
    (pyTruthy e.timestamp = false →
      ∃ tbl' inv, broadcast tbl ct e = .ok ({ e with timestamp := ct }, tbl', inv)) ∧
    (pyTruthy e.timestamp = true → e.timestamp ≠ ct →
      broadcast tbl ct e = .error "Broadcasting event with invalid timestamp.") ∧
    (pyTruthy e.timestamp = true → e.timestamp = ct →
      ∃ tbl' inv, broadcast tbl ct e = .ok (e, tbl', inv)) := by
  refine ⟨fun hf => ?_, fun ht hne => ?_, fun ht heq => ?_⟩
  · refine ⟨(tblGetCreate tbl e.event_type).2,
      fanout (tblGetCreate tbl e.event_type).1 { e with timestamp := ct }, ?_⟩
    unfold broadcast
    rw [if_neg (by simp [hf])]
  · unfold broadcast
    rw [if_pos ht, if_pos hne]
  · refine ⟨(tblGetCreate tbl e.event_type).2,
      fanout (tblGetCreate tbl e.event_type).1 e, ?_⟩
    unfold broadcast
    rw [if_pos ht, if_neg (by simp [heq])]

/-- Witness for `broadcast_timestamp_check` at concrete inputs. -/
theorem broadcast_timestamp_check_witness :
    broadcast [] (some 5) ⟨2, some 3, 7⟩ = .error "Broadcasting event with invalid timestamp." ∧
    (∃ tbl' inv, broadcast [] (some 5) ⟨3, none, 7⟩ = .ok (⟨3, some 5, 7⟩, tbl', inv)) :=
  ⟨(broadcast_timestamp_check [] (some 5) ⟨2, some 3, 7⟩).2.1 (by decide) (by decide),
   (broadcast_timestamp_check [] (some 5) ⟨3, none, 7⟩).1 (by decide)⟩

/-! ### Claim C6 (confirmed) -/

/-- C6: for every event broadcast on the bus, the `(filter, handler)` pairs
subscribed for the event's type are visited in registration order and a
handler is invoked exactly when its filter is absent or returns true for the
event; in particular, if `h1` is registered before `h2` for the same type
and both match, `h1` is invoked strictly before `h2`. -/
theorem broadcast_fanout_order (tbl : ListenerTable) (ct : Option Nat) (e e' : BusEvent)
    (tbl' : ListenerTable) (inv : List Nat)
    (hok : broadcast tbl ct e = .ok (e', tbl', inv)) :
    inv = (((tblLookup tbl e.event_type).getD []).filter
            (fun p => matchF p.1 e')).map Prod.snd ∧
    ∀ pre f1 h1 mid f2 h2 post,
      (tblLookup tbl e.event_type).getD [] = pre ++ (f1, h1) :: mid ++ (f2, h2) :: post →
      matchF f1 e' = true → matchF f2 e' = true →
      ∃ xs ys zs, inv = xs ++ h1 :: ys ++ h2 :: zs := by
  obtain ⟨-, hinv, -⟩ := broadcast_ok_shape tbl ct e e' tbl' inv hok
  constructor
  · rw [hinv, fanout_eq_filter_map]
  · intro pre f1 h1 mid f2 h2 post hdec hm1 hm2
    refine ⟨fanout pre e', fanout mid e', fanout post e', ?_⟩
    rw [hinv, hdec]
    rw [show pre ++ (f1, h1) :: mid ++ (f2, h2) :: post =
          pre ++ (((f1, h1) :: mid) ++ (f2, h2) :: post) by simp]
    rw [fanout_append, fanout_append]
    simp [fanout, hm1, hm2]

/-- Witness for `broadcast_fanout_order`: two handlers subscribed for type 7,
the first with no filter, the second with a filter matching the event. -/
theorem broadcast_fanout_order_witness :
    ([1, 2] : List Nat) =
      (((tblLookup [(7, [(none, 1), (some (fun ev : BusEvent => ev.id == 1), 2)])]
          (⟨1, none, 7⟩ : BusEvent).event_type).getD []).filter
        (fun p => matchF p.1 ⟨1, some 3, 7⟩)).map Prod.snd ∧
    ∃ xs ys zs, ([1, 2] : List Nat) = xs ++ 1 :: ys ++ 2 :: zs := by
  have h := broadcast_fanout_order
    [(7, [(none, 1), (some (fun ev : BusEvent => ev.id == 1), 2)])]
    (some 3) ⟨1, none, 7⟩ ⟨1, some 3, 7⟩
    [(7, [(none, 1), (some (fun ev : BusEvent => ev.id == 1), 2)])] [1, 2] rfl
  exact ⟨h.1, h.2 [] none 1 [] (some (fun ev : BusEvent => ev.id == 1)) 2 [] rfl rfl rfl⟩

/-! ### Claim C10 (confirmed) -/

/-- C10: broadcasting an event of a type with no subscriptions (once the
timestamp check or stamping succeeds) completes without error and invokes no
handlers, and the subscription table entries for every other event type are
left unchanged. -/
theorem broadcast_no_listeners (tbl : ListenerTable) (ct : Option Nat) (e : BusEvent)
    (hts : pyTruthy e.timestamp = false ∨ e.timestamp = ct)
    (hnone : (tblLookup tbl e.event_type).getD [] = []) :
    ∃ e' tbl', broadcast tbl ct e = .ok (e', tbl', []) ∧
      ∀ t, t ≠ e.event_type → tblLookup tbl' t = tblLookup tbl t := by
  have hfan : fanout (tblGetCreate tbl e.event_type).1 = fun _ => [] := by
    funext ev
    rw [tblGetCreate_fst, hnone]
    rfl
  have hlk : ∀ t, t ≠ e.event_type →
      tblLookup (tblGetCreate tbl e.event_type).2 t = tblLookup tbl t :=
    fun t ht => tblGetCreate_snd_lookup tbl e.event_type t ht
  rcases hts with hf | heq
  · refine ⟨{ e with timestamp := ct }, (tblGetCreate tbl e.event_type).2, ?_, hlk⟩
    unfold broadcast
    rw [if_neg (by simp [hf]), hfan]
  · by_cases ht : pyTruthy e.timestamp = true
    · refine ⟨e, (tblGetCreate tbl e.event_type).2, ?_, hlk⟩
      unfold broadcast
      rw [if_pos ht, if_neg (by simp [heq]), hfan]
    · refine ⟨{ e with timestamp := ct }, (tblGetCreate tbl e.event_type).2, ?_, hlk⟩
      unfold broadcast
      rw [if_neg ht, hfan]

/-- Witness for `broadcast_no_listeners`: empty subscription table. -/
theorem broadcast_no_listeners_witness :
    ∃ e' tbl', broadcast [] (some 2) ⟨1, none, 5⟩ = .ok (e', tbl', []) ∧
      ∀ t, t ≠ (⟨1, none, 5⟩ : BusEvent).event_type →
        tblLookup tbl' t = tblLookup [] t :=
  broadcast_no_listeners [] (some 2) ⟨1, none, 5⟩ (Or.inl rfl) rfl

/-! ## Module registry (`register` / `get_module_for_type`,
uamp_sim.py lines 41-65)

Modelled from the spec: the `SimModule` interface and the module-type
enumeration live in `sim_interface.py`, outside the shown source.  Per
spec §3/§6 a module exposes `get_name()` (a unique string) and `get_type()`
(an enumeration tag); the tag is identified with its `.value`, so the
membership test at line 48 and the `.value`-keyed lookup at line 49 use the
same key. -/

/-- A simulation module as the registry sees it: its name and the value of
its declared type tag. -/
structure SimModule where
  name : String
  mtype : Nat
deriving DecidableEq

/-- An arbitrary Python object passed to `register`: either a genuine
`SimModule` or something else (rejected by the `isinstance` check at
uamp_sim.py line 54). -/
inductive PyObj where
  | simModule (m : SimModule)
  | nonModule (tag : Nat)
deriving DecidableEq

/-- The exceptions `register` can raise: `TypeError("Expected SimModule
object")` and `Exception("Module ... already exists")`. -/
inductive RegError where
  | typeError
  | duplicateModule (name : String)
deriving DecidableEq

/-- Registry state: `self.sim_modules` (an insertion-ordered name map) and
`self.module_type_map` (a `defaultdict(deque)` keyed by type value, modelled
as an association list so that key presence is observable). -/
structure Registry where
  sim_modules : List (String × SimModule)
  module_type_map : List (Nat × List SimModule)
deriving DecidableEq

def emptyRegistry : Registry := ⟨[], []⟩

def lookupName (r : Registry) (n : String) : Option SimModule :=
  (r.sim_modules.find? (fun p => p.1 = n)).map Prod.snd

/-- `name in self.sim_modules` (uamp_sim.py line 57). -/
def containsName (r : Registry) (n : String) : Bool := (lookupName r n).isSome

def tmLookup : List (Nat × List SimModule) → Nat → Option (List SimModule)
  | [], _ => none
  | (k, v) :: rest, t => if k = t then some v else tmLookup rest t

/-- `self.module_type_map[k].append(m)` / `.appendleft(m)` on the
`defaultdict(deque)` (uamp_sim.py lines 62-65): update the deque stored at
`k`, creating it when absent; `front = true` is `appendleft`. -/
def tmAdd : List (Nat × List SimModule) → Nat → SimModule → Bool →
    List (Nat × List SimModule)
  | [], k, m, _ => [(k, [m])]
  | (k', v) :: rest, k, m, front =>
    if k' = k then (k', if front then m :: v else v ++ [m]) :: rest
    else (k', v) :: tmAdd rest k m front

/-- `Simulator.register` (uamp_sim.py lines 53-65). -/
def register (r : Registry) (obj : PyObj) (override : Bool) : Except RegError Registry :=
  match obj with
  | .nonModule _ => .error .typeError
  | .simModule m =>
    if containsName r m.name then .error (.duplicateModule m.name)
    else
      .ok { sim_modules := r.sim_modules ++ [(m.name, m)],
            module_type_map := tmAdd r.module_type_map m.mtype m override }

/-- `Simulator.get_module_for_type` (uamp_sim.py lines 47-51): if the type
is a key of the map, return element `[0]` of its deque, else `None`.  The
`[0]` indexing is modelled with `head?`; in every registry built by
`register` a present key holds a nonempty deque, so the `IndexError` branch
is unreachable. -/
def get_module_for_type (r : Registry) (module_type : Nat) : Option SimModule :=
  if (tmLookup r.module_type_map module_type).isSome then
    ((tmLookup r.module_type_map module_type).getD []).head?
  else none

/-- A build-phase registration history: `register` applied left to right,
a raised exception aborting the remainder (uamp_sim.py lines 87-92). -/
def registerAllFrom : Registry → List (SimModule × Bool) → Except RegError Registry
  | r, [] => .ok r
  | r, (m, ov) :: ops =>
    match register r (.simModule m) ov with
    | .error err => .error err
    | .ok r' => registerAllFrom r' ops

def registerAll (ops : List (SimModule × Bool)) : Except RegError Registry :=
  registerAllFrom emptyRegistry ops

/-- Modelled from the spec (§4.2, §8): the "active" module for a type after
a registration history — the first module in that type's sequence, i.e. the
most recent `override = true` registration of that type if any, otherwise
the earliest ordinary (append) registration; `none` when no module of the
type was registered. -/
def specActiveModule (ops : List (SimModule × Bool)) (t : Nat) : Option SimModule :=
  match ((ops.filter (fun p => p.1.mtype = t)).filter (fun p => p.2)).getLast? with
  | some p => some p.1
  | none => ((ops.filter (fun p => p.1.mtype = t)).head?).map Prod.fst

/-- The deque that a registration history builds for type `t`: the
`override` registrations reversed (each was prepended) followed by the
ordinary registrations in order (each was appended). -/
def deqModel (ops : List (SimModule × Bool)) (t : Nat) : List SimModule :=
  (((ops.filter (fun p => p.1.mtype = t)).filter (fun p => p.2)).reverse).map Prod.fst ++
  ((ops.filter (fun p => p.1.mtype = t)).filter (fun p => !p.2)).map Prod.fst

/-- The type map of a registry is described by a registration history. -/
def TMDescribed (ops : List (SimModule × Bool)) (tm : List (Nat × List SimModule)) : Prop :=
  ∀ t, tmLookup tm t =
    if (ops.filter (fun p => p.1.mtype = t)).isEmpty then none else some (deqModel ops t)

/-! ### Registry lemmas -/

lemma tmLookup_tmAdd_self (tm : List (Nat × List SimModule)) (k : Nat) (m : SimModule)
    (front : Bool) :
    tmLookup (tmAdd tm k m front) k =
      some (if front then m :: (tmLookup tm k).getD []
            else (tmLookup tm k).getD [] ++ [m]) := by
  induction tm with
  | nil => cases front <;> simp [tmAdd, tmLookup]
  | cons p rest ih =>
    obtain ⟨k', v⟩ := p
    by_cases hk : k' = k
    · subst hk
      simp [tmAdd, tmLookup]
    · simp [tmAdd, tmLookup, hk, ih]

lemma tmLookup_tmAdd_other (tm : List (Nat × List SimModule)) (k : Nat) (m : SimModule)
    (front : Bool) (t : Nat) (h : t ≠ k) :
    tmLookup (tmAdd tm k m front) t = tmLookup tm t := by
  induction tm with
  | nil => simp [tmAdd, tmLookup, Ne.symm h]
  | cons p rest ih =>
    obtain ⟨k', v⟩ := p
    by_cases hk : k' = k
    · subst hk
      simp [tmAdd, tmLookup, Ne.symm h]
    · simp [tmAdd, tmLookup, hk, ih]

lemma deqModel_eq_nil (ops : List (SimModule × Bool)) (t : Nat)
    (h : (ops.filter (fun p => p.1.mtype = t)).isEmpty = true) :
    deqModel ops t = [] := by
  rw [List.isEmpty_iff] at h
  simp [deqModel, h]

lemma TMDescribed_getD (ops : List (SimModule × Bool)) (tm : List (Nat × List SimModule))
    (h : TMDescribed ops tm) (t : Nat) :
    (tmLookup tm t).getD [] = deqModel ops t := by
  rw [h t]
  by_cases hemp : (ops.filter (fun p => p.1.mtype = t)).isEmpty = true
  · rw [if_pos hemp, deqModel_eq_nil ops t hemp]
    rfl
  · rw [if_neg hemp]
    rfl

lemma TMDescribed_step (ops : List (SimModule × Bool)) (tm : List (Nat × List SimModule))
    (m : SimModule) (ov : Bool) (h : TMDescribed ops tm) :
    TMDescribed (ops ++ [(m, ov)]) (tmAdd tm m.mtype m ov) := by
  intro t
  by_cases ht : t = m.mtype
  · subst ht
    rw [tmLookup_tmAdd_self, TMDescribed_getD ops tm h m.mtype]
    have hcond : ¬(((ops ++ [(m, ov)]).filter
        (fun p => p.1.mtype = m.mtype)).isEmpty = true) := by
      simp [List.filter_append]
    rw [if_neg hcond]
    cases ov <;>
      simp [deqModel, List.filter_append, List.reverse_append, List.append_assoc]
  · rw [tmLookup_tmAdd_other _ _ _ _ _ ht, h t]
    have hne : ¬(m.mtype = t) := fun hh => ht hh.symm
    have hfilt : (ops ++ [(m, ov)]).filter (fun p => p.1.mtype = t) =
        ops.filter (fun p => p.1.mtype = t) := by
      simp [List.filter_append, hne]
    unfold deqModel
    rw [hfilt]

lemma registerAllFrom_described (ops : List (SimModule × Bool)) :
    ∀ (pre : List (SimModule × Bool)) (r reg : Registry),
      TMDescribed pre r.module_type_map →
      registerAllFrom r ops = .ok reg →
      TMDescribed (pre ++ ops) reg.module_type_map := by
  induction ops with
  | nil =>
    intro pre r reg h hr
    simp only [registerAllFrom, Except.ok.injEq] at hr
    subst hr
    simpa using h
  | cons p rest ih =>
    intro pre r reg h hr
    obtain ⟨m, ov⟩ := p
    unfold registerAllFrom at hr
    cases hreg : register r (.simModule m) ov with
    | error err =>
      rw [hreg] at hr
      simp at hr
    | ok r' =>
      rw [hreg] at hr
      have hr' : r'.module_type_map = tmAdd r.module_type_map m.mtype m ov := by
        simp only [register] at hreg
        split at hreg
        · exact Except.noConfusion hreg
        · injection hreg with hreg'
          rw [← hreg']
      have hstep := TMDescribed_step pre r.module_type_map m ov h
      rw [← hr'] at hstep
      have := ih (pre ++ [(m, ov)]) r' reg hstep hr
      simpa [List.append_assoc] using this

lemma deqModel_head_eq_spec (ops : List (SimModule × Bool)) (t : Nat) :
    (deqModel ops t).head? = specActiveModule ops t := by
  unfold deqModel specActiveModule
  cases hov : ((ops.filter (fun p => p.1.mtype = t)).filter (fun p => p.2)).getLast? with
  | some p =>
    have hne : ((ops.filter (fun p => p.1.mtype = t)).filter (fun p => p.2)).reverse.map
        Prod.fst ≠ [] := by
      intro hnil
      rw [List.map_eq_nil_iff, List.reverse_eq_nil_iff] at hnil
      rw [hnil] at hov
      simp at hov
    rw [List.head?_append_of_ne_nil _ hne, List.head?_map, List.head?_reverse, hov]
    rfl
  | none =>
    rw [List.getLast?_eq_none_iff] at hov
    have hall : (ops.filter (fun p => p.1.mtype = t)).filter (fun p => !p.2) =
        ops.filter (fun p => p.1.mtype = t) := by
      rw [List.filter_eq_self]
      intro a ha
      have := List.filter_eq_nil_iff.mp hov a ha
      simpa using this
    simp [hov, hall, List.head?_map]

/-! ### Claim C3 (confirmed) -/

/-- C3: after any successful registration history, `get_module_for_type`
returns the first module in the requested type's sequence — the most recent
`override = true` registration of that type if one exists, otherwise the
earliest ordinary registration — and `none` when no module of that type was
registered.  Because this holds for every history `ops`, later registrations
of the same type never leave a stale result. -/
theorem get_for_type_matches_spec (ops : List (SimModule × Bool)) (reg : Registry) (t : Nat)
    (h : registerAll ops = .ok reg) :
    get_module_for_type reg t = specActiveModule ops t := by
  have hdesc : TMDescribed ops reg.module_type_map := by
    have h0 : TMDescribed [] emptyRegistry.module_type_map := fun t => by
      simp [emptyRegistry, tmLookup]
    simpa using registerAllFrom_described ops [] emptyRegistry reg h0 h
  unfold get_module_for_type
  rw [hdesc t]
  by_cases hemp : (ops.filter (fun p => p.1.mtype = t)).isEmpty = true
  · rw [if_pos hemp]
    rw [List.isEmpty_iff] at hemp
    simp [specActiveModule, hemp]
  · rw [if_neg hemp]
    simpa using deqModel_head_eq_spec ops t

/-- Witness for `get_for_type_matches_spec`: three modules of type 1,
the last registered with `override = true`, so it is the active one. -/
theorem get_for_type_matches_spec_witness :
    get_module_for_type
      ⟨[("a", ⟨"a", 1⟩), ("b", ⟨"b", 1⟩), ("c", ⟨"c", 1⟩)],
       [(1, [⟨"c", 1⟩, ⟨"a", 1⟩, ⟨"b", 1⟩])]⟩ 1 =
      specActiveModule [(⟨"a", 1⟩, false), (⟨"b", 1⟩, false), (⟨"c", 1⟩, true)] 1 :=
  get_for_type_matches_spec [(⟨"a", 1⟩, false), (⟨"b", 1⟩, false), (⟨"c", 1⟩, true)]
    ⟨[("a", ⟨"a", 1⟩), ("b", ⟨"b", 1⟩), ("c", ⟨"c", 1⟩)],
     [(1, [⟨"c", 1⟩, ⟨"a", 1⟩, ⟨"b", 1⟩])]⟩ 1 rfl

/-! ### Claim C7 (confirmed) -/

/-- C7: `register` fails fast with a type error when the object is not a
`SimModule`; fails with the duplicate-module error when a module with the
same name is already registered; otherwise succeeds, appending the module to
the name map and appending (or, when `override` is true, prepending) it to
the sequence for its declared type, leaving every other type's sequence
unchanged. -/
theorem register_behavior (r : Registry) (m : SimModule) (ov : Bool) (tag : Nat) :
    register r (.nonModule tag) ov = .error .typeError ∧
    (containsName r m.name = true →
      register r (.simModule m) ov = .error (.duplicateModule m.name)) ∧
    (containsName r m.name = false →
      ∃ r', register r (.simModule m) ov = .ok r' ∧
        r'.sim_modules = r.sim_modules ++ [(m.name, m)] ∧
        tmLookup r'.module_type_map m.mtype =
          some (if ov then m :: (tmLookup r.module_type_map m.mtype).getD []
                else (tmLookup r.module_type_map m.mtype).getD [] ++ [m]) ∧
        ∀ t, t ≠ m.mtype →
          tmLookup r'.module_type_map t = tmLookup r.module_type_map t) := by
  refine ⟨rfl, fun hdup => ?_, fun hfree => ?_⟩
  · simp [register, hdup]
  · refine ⟨{ sim_modules := r.sim_modules ++ [(m.name, m)],
              module_type_map := tmAdd r.module_type_map m.mtype m ov }, ?_, rfl, ?_, ?_⟩
    · simp [register, hfree]
    · exact tmLookup_tmAdd_self r.module_type_map m.mtype m ov
    · exact fun t ht => tmLookup_tmAdd_other r.module_type_map m.mtype m ov t ht

/-- Witness for `register_behavior` at concrete inputs. -/
theorem register_behavior_witness :
    register ⟨[("a", ⟨"a", 1⟩)], [(1, [⟨"a", 1⟩])]⟩ (.simModule ⟨"a", 2⟩) false =
      .error (.duplicateModule "a") ∧
    (∃ r', register ⟨[("a", ⟨"a", 1⟩)], [(1, [⟨"a", 1⟩])]⟩ (.simModule ⟨"b", 1⟩) true =
        .ok r' ∧
      r'.sim_modules = [("a", ⟨"a", 1⟩)] ++ [("b", ⟨"b", 1⟩)] ∧
      tmLookup r'.module_type_map 1 =
        some (if true then (⟨"b", 1⟩ : SimModule) ::
              (tmLookup [(1, [⟨"a", 1⟩])] 1).getD []
              else (tmLookup [(1, [⟨"a", 1⟩])] 1).getD [] ++ [⟨"b", 1⟩]) ∧
      ∀ t, t ≠ 1 → tmLookup r'.module_type_map t = tmLookup [(1, [⟨"a", 1⟩])] t) :=
  ⟨(register_behavior ⟨[("a", ⟨"a", 1⟩)], [(1, [⟨"a", 1⟩])]⟩ ⟨"a", 2⟩ false 0).2.1 (by decide),
   (register_behavior ⟨[("a", ⟨"a", 1⟩)], [(1, [⟨"a", 1⟩])]⟩ ⟨"b", 1⟩ true 0).2.2 (by decide)⟩

/-! ## Event queue and run loop (`Simulator.run`, uamp_sim.py lines 98-143)

Events flowing through the queue carry a concrete timestamp (the queue keys
every push by it and Python would fail comparing `None` against a number).
The event-type enumeration lives in `events.py` outside the shown source;
only its two engine-reserved members matter here. -/

/-- Event types: `SIM_DEBUG` and `SIM_ALARM` are reserved and handled by the
engine itself (uamp_sim.py lines 178-180); all other types are
domain-specific and broadcast verbatim. -/
inductive EventType where
  | SIM_DEBUG
  | SIM_ALARM
  | other (n : Nat)
deriving DecidableEq

/-- An event as held in the trace and the queue.  `period` and `repeating`
are only meaningful for alarms; `id` identifies the event object. -/
structure QEvent where
  id : Nat
  timestamp : Nat
  event_type : EventType
  period : Nat
  repeating : Bool
deriving DecidableEq

/-- Modelled from the spec (§4.4): the alarm fire action is defined by the
event classes outside the shown source; implementations must advance the
alarm's timestamp by `period` before or as part of `fire()`. -/
def QEvent.fire (e : QEvent) : QEvent :=
  { e with timestamp := e.timestamp + e.period }

/-- A queue entry: an event pushed with composite sort key
`(key_ts, key_pri)`. -/
structure QEntry where
  event : QEvent
  key_ts : Nat
  key_pri : Nat
deriving DecidableEq

/-- Ordering of composite sort keys: ascending by timestamp, then ascending
by priority class (Python tuple comparison of
`(timestamp, priority_class)`). -/
def keyLE (a b : QEntry) : Bool :=
  decide (a.key_ts < b.key_ts ∨ (a.key_ts = b.key_ts ∧ a.key_pri ≤ b.key_pri))

/-- Modelled from the spec (§4.1): the external `PriorityQueue` collaborator
(`utils.py`, outside the shown source).  The queue is the push-ordered list
of its entries; `pop` removes and returns the minimum by sort key, the
earliest-pushed entry among fully equal keys (§4.1 leaves that tie-break
open). -/
def popQ : List QEntry → Option (QEntry × List QEntry)
  | [] => none
  | e :: es =>
    match popQ es with
    | none => some (e, [])
    | some (m, rest) => if keyLE e m then some (e, es) else some (m, e :: rest)

/-- The run-loop state: the not-yet-pulled remainder of the trace, the event
queue, `self.current_time`, and observation logs — the `current_time` value
set at each dispatch (uamp_sim.py line 132), the ids of alarms fired
directly, of events broadcast on the bus, and of debug checkpoints. -/
structure SimState where
  trace : List QEvent
  queue : List QEntry
  current_time : Option Nat
  dispatched : List Nat
  fired : List Nat
  broadcastLog : List Nat
  debugLog : List Nat
deriving DecidableEq

/-- `Simulator.__populate_event_queue_from_trace` (lines 187-191), with the
trace-reader contract modelled from the spec (§6): `get_events(count)`
consumes and returns up to `count` events in timestamp order, so it is
`take`/`drop` on the remaining trace.  Each pulled event is pushed at
priority class TRACE keyed by its own timestamp. -/
def populate (s : SimState) : SimState :=
  { s with
    trace := s.trace.drop EVENT_QUEUE_THRESHOLD,
    queue := s.queue ++ (s.trace.take EVENT_QUEUE_THRESHOLD).map
      (fun x => ⟨x, x.timestamp, Priority.TRACE⟩) }

/-- `Simulator.register_alarm` (lines 164-165): push the alarm at
`(alarm.timestamp, Priority.ALARM)`. -/
def register_alarm (s : SimState) (alarm : QEvent) : SimState :=
  { s with queue := s.queue ++ [⟨alarm, alarm.timestamp, Priority.ALARM⟩] }

/-- `Simulator.__execute_event` (lines 177-185): a debug checkpoint invokes
the debug controller; an alarm is fired directly — not broadcast — and, if
repeating, re-pushed at `(timestamp, Priority.ALARM)` with the timestamp the
fire action produced; every other event is broadcast on the bus. -/
def execute_event (s : SimState) (e : QEvent) : SimState :=
  if e.event_type = EventType.SIM_DEBUG then
    { s with debugLog := s.debugLog ++ [e.id] }
  else if e.event_type = EventType.SIM_ALARM then
    if e.fire.repeating then
      { s with fired := s.fired ++ [e.id],
               queue := s.queue ++ [⟨e.fire, e.fire.timestamp, Priority.ALARM⟩] }
    else { s with fired := s.fired ++ [e.id] }
  else { s with broadcastLog := s.broadcastLog ++ [e.id] }

/-- One dispatch (lines 129-142): remove the minimal entry, set
`current_time` to the popped event's timestamp, record the dispatch, and
execute the event. -/
def stepDispatch (s : SimState) (m : QEntry) (rest : List QEntry) : SimState :=
  execute_event
    { s with queue := rest,
             current_time := some m.event.timestamp,
             dispatched := s.dispatched ++ [m.event.timestamp] } m.event

/-- The while-loop guard (line 107): stop once the trace is exhausted and
the queue is empty. -/
def loopDone (s : SimState) : Bool := s.trace.isEmpty && s.queue.isEmpty

/-- One iteration of the run loop (lines 110-142): refill when the queue is
below `EVENT_QUEUE_THRESHOLD` and the trace is not exhausted; otherwise
refill when the next not-yet-pulled trace event is strictly earlier than the
queue's minimum; otherwise dispatch the minimum. -/
def loopBody (s : SimState) : SimState :=
  if decide (s.queue.length < EVENT_QUEUE_THRESHOLD) && !s.trace.isEmpty then
    populate s
  else
    match popQ s.queue with
    | none => s
    | some (m, rest) =>
      match s.trace.head? with
      | some te =>
        if te.timestamp < m.event.timestamp then populate s
        else stepDispatch s m rest
      | none => stepDispatch s m rest

/-- `Simulator.run`'s while loop (lines 107-143), fuel-indexed: a repeating
alarm whose fire action leaves its timestamp in place (period 0) makes the
real loop diverge, so every theorem quantifies over the number of
iterations. -/
def runLoop : Nat → SimState → SimState
  | 0, s => s
  | Nat.succ fuel, s => if loopDone s then s else runLoop fuel (loopBody s)

/-! ### Queue lemmas -/

lemma keyLE_refl (a : QEntry) : keyLE a a = true := by simp [keyLE]

lemma keyLE_trans {a b c : QEntry} (h1 : keyLE a b = true) (h2 : keyLE b c = true) :
    keyLE a c = true := by
  simp only [keyLE, decide_eq_true_eq] at *
  omega

lemma keyLE_total (a b : QEntry) : keyLE a b = true ∨ keyLE b a = true := by
  simp only [keyLE, decide_eq_true_eq]
  omega

lemma keyLE_ts {a b : QEntry} (h : keyLE a b = true) : a.key_ts ≤ b.key_ts := by
  simp only [keyLE, decide_eq_true_eq] at h
  omega

lemma popQ_eq_none (q : List QEntry) : popQ q = none ↔ q = [] := by
  constructor
  · intro h
    cases q with
    | nil => rfl
    | cons e es =>
      exfalso
      simp only [popQ] at h
      cases hes : popQ es with
      | none => simp only [hes] at h; exact Option.noConfusion h
      | some p =>
        obtain ⟨m, rest⟩ := p
        simp only [hes] at h
        by_cases hk : keyLE e m = true
        · rw [if_pos hk] at h; exact Option.noConfusion h
        · rw [if_neg hk] at h; exact Option.noConfusion h
  · intro h
    subst h
    rfl

lemma popQ_mem : ∀ {q : List QEntry} {m : QEntry} {rest : List QEntry},
    popQ q = some (m, rest) → m ∈ q := by
  intro q
  induction q with
  | nil => intro m rest h; simp [popQ] at h
  | cons e es ih =>
    intro m rest h
    simp only [popQ] at h
    cases hes : popQ es with
    | none =>
      simp only [hes] at h
      simp only [Option.some.injEq, Prod.mk.injEq] at h
      rw [← h.1]
      exact List.mem_cons_self e es
    | some p =>
      obtain ⟨m', rest'⟩ := p
      simp only [hes] at h
      by_cases hk : keyLE e m' = true
      · rw [if_pos hk] at h
        simp only [Option.some.injEq, Prod.mk.injEq] at h
        rw [← h.1]
        exact List.mem_cons_self e es
      · rw [if_neg hk] at h
        simp only [Option.some.injEq, Prod.mk.injEq] at h
        rw [← h.1]
        exact List.mem_cons_of_mem e (ih hes)

lemma popQ_rest_subset : ∀ {q : List QEntry} {m : QEntry} {rest : List QEntry},
    popQ q = some (m, rest) → ∀ x ∈ rest, x ∈ q := by
  intro q
  induction q with
  | nil => intro m rest h; simp [popQ] at h
  | cons e es ih =>
    intro m rest h
    simp only [popQ] at h
    cases hes : popQ es with
    | none =>
      simp only [hes] at h
      simp only [Option.some.injEq, Prod.mk.injEq] at h
      rw [← h.2]
      intro x hx
      simp at hx
    | some p =>
      obtain ⟨m', rest'⟩ := p
      simp only [hes] at h
      by_cases hk : keyLE e m' = true
      · rw [if_pos hk] at h
        simp only [Option.some.injEq, Prod.mk.injEq] at h
        rw [← h.2]
        exact fun x hx => List.mem_cons_of_mem e hx
      · rw [if_neg hk] at h
        simp only [Option.some.injEq, Prod.mk.injEq] at h
        rw [← h.2]
        intro x hx
        rcases List.mem_cons.mp hx with hx | hx
        · rw [hx]; exact List.mem_cons_self e es
        · exact List.mem_cons_of_mem e (ih hes x hx)

lemma popQ_min : ∀ {q : List QEntry} {m : QEntry} {rest : List QEntry},
    popQ q = some (m, rest) → ∀ x ∈ q, keyLE m x = true := by
  intro q
  induction q with
  | nil => intro m rest h; simp [popQ] at h
  | cons e es ih =>
    intro m rest h
    simp only [popQ] at h
    cases hes : popQ es with
    | none =>
      simp only [hes] at h
      simp only [Option.some.injEq, Prod.mk.injEq] at h
      rw [← h.1]
      intro x hx
      rcases List.mem_cons.mp hx with hx | hx
      · rw [hx]; exact keyLE_refl e
      · exact absurd ((popQ_eq_none es).mp hes ▸ hx) (List.not_mem_nil x)
    | some p =>
      obtain ⟨m', rest'⟩ := p
      simp only [hes] at h
      by_cases hk : keyLE e m' = true
      · rw [if_pos hk] at h
        simp only [Option.some.injEq, Prod.mk.injEq] at h
        rw [← h.1]
        intro x hx
        rcases List.mem_cons.mp hx with hx | hx
        · rw [hx]; exact keyLE_refl e
        · exact keyLE_trans hk (ih hes x hx)
      · rw [if_neg hk] at h
        simp only [Option.some.injEq, Prod.mk.injEq] at h
        rw [← h.1]
        intro x hx
        rcases List.mem_cons.mp hx with hx | hx
        · rw [hx]
          rcases keyLE_total e m' with he | he
          · exact absurd he hk
          · exact he
        · exact ih hes x hx

lemma popQ_ne_nil {q : List QEntry} {m : QEntry} {rest : List QEntry}
    (h : popQ q = some (m, rest)) : q ≠ [] := by
  intro hq
  rw [(popQ_eq_none q).mpr hq] at h
  exact Option.noConfusion h

/-! ### Run-loop invariant -/

/-- The invariant maintained by every run-loop iteration: dispatched
`current_time` values are non-decreasing, every queued or not-yet-pulled
event lies at or after every dispatch so far, the remaining trace is sorted,
every queue entry is keyed by its own event's timestamp, and `current_time`
is the last dispatched timestamp. -/
def Inv (s : SimState) : Prop :=
  s.dispatched.Pairwise (· ≤ ·) ∧
  (∀ d ∈ s.dispatched, ∀ en ∈ s.queue, d ≤ en.event.timestamp) ∧
  (∀ d ∈ s.dispatched, ∀ te ∈ s.trace, d ≤ te.timestamp) ∧
  s.trace.Pairwise (fun a b => a.timestamp ≤ b.timestamp) ∧
  (∀ en ∈ s.queue, en.key_ts = en.event.timestamp) ∧
  s.current_time = s.dispatched.getLast?

lemma populate_inv {s : SimState} (h : Inv s) : Inv (populate s) := by
  obtain ⟨h1, h2, h3, h4, h5, h6⟩ := h
  refine ⟨h1, ?_, ?_, ?_, ?_, h6⟩
  · intro d hd en hen
    simp only [populate, List.mem_append, List.mem_map] at hen
    rcases hen with hen | ⟨x, hx, hxe⟩
    · exact h2 d hd en hen
    · rw [← hxe]
      exact h3 d hd x (List.take_subset _ _ hx)
  · intro d hd te hte
    exact h3 d hd te (List.drop_subset _ _ hte)
  · exact List.Pairwise.sublist (List.drop_sublist _ _) h4
  · intro en hen
    simp only [populate, List.mem_append, List.mem_map] at hen
    rcases hen with hen | ⟨x, hx, hxe⟩
    · exact h5 en hen
    · rw [← hxe]

lemma execute_event_inv {s : SimState} {e : QEvent} (h : Inv s)
    (hub : ∀ d ∈ s.dispatched, d ≤ e.timestamp) : Inv (execute_event s e) := by
  obtain ⟨h1, h2, h3, h4, h5, h6⟩ := h
  unfold execute_event
  split
  · exact ⟨h1, h2, h3, h4, h5, h6⟩
  · split
    · split
      · refine ⟨h1, ?_, h3, h4, ?_, h6⟩
        · intro d hd en hen
          rcases List.mem_append.mp hen with hen | hen
          · exact h2 d hd en hen
          · simp only [List.mem_singleton] at hen
            rw [hen]
            calc d ≤ e.timestamp := hub d hd
              _ ≤ e.timestamp + e.period := Nat.le_add_right _ _
        · intro en hen
          rcases List.mem_append.mp hen with hen | hen
          · exact h5 en hen
          · simp only [List.mem_singleton] at hen
            rw [hen]
      · exact ⟨h1, h2, h3, h4, h5, h6⟩
    · exact ⟨h1, h2, h3, h4, h5, h6⟩

lemma stepDispatch_inv {s : SimState} {m : QEntry} {rest : List QEntry} (h : Inv s)
    (hpop : popQ s.queue = some (m, rest))
    (hla : ∀ te, s.trace.head? = some te → m.event.timestamp ≤ te.timestamp) :
    Inv (stepDispatch s m rest) := by
  obtain ⟨h1, h2, h3, h4, h5, h6⟩ := h
  have hm := popQ_mem hpop
  have hsub := popQ_rest_subset hpop
  have hmin := popQ_min hpop
  have hub : ∀ d ∈ s.dispatched, d ≤ m.event.timestamp := fun d hd => h2 d hd m hm
  have hcore : Inv { s with queue := rest,
                            current_time := some m.event.timestamp,
                            dispatched := s.dispatched ++ [m.event.timestamp] } := by
    refine ⟨?_, ?_, ?_, h4, ?_, ?_⟩
    · rw [List.pairwise_append]
      refine ⟨h1, List.pairwise_singleton _ _, ?_⟩
      intro a ha b hb
      simp only [List.mem_singleton] at hb
      rw [hb]
      exact hub a ha
    · intro d hd en hen
      have hen' : en ∈ s.queue := hsub en hen
      rcases List.mem_append.mp hd with hd | hd
      · exact h2 d hd en hen'
      · simp only [List.mem_singleton] at hd
        rw [hd]
        have hk := keyLE_ts (hmin en hen')
        rw [h5 m hm, h5 en hen'] at hk
        exact hk
    · intro d hd te hte
      rcases List.mem_append.mp hd with hd | hd
      · exact h3 d hd te hte
      · simp only [List.mem_singleton] at hd
        rw [hd]
        cases htr : s.trace with
        | nil =>
          rw [htr] at hte
          exact absurd hte (List.not_mem_nil te)
        | cons t0 tr =>
          have h0 : m.event.timestamp ≤ t0.timestamp := hla t0 (by rw [htr]; rfl)
          rw [htr] at hte
          rcases List.mem_cons.mp hte with hte | hte
          · rw [hte]; exact h0
          · have h4' := h4
            rw [htr] at h4'
            exact le_trans h0 ((List.pairwise_cons.mp h4').1 te hte)
    · intro en hen
      exact h5 en (hsub en hen)
    · simp [List.getLast?_concat]
  have hub' : ∀ d ∈ s.dispatched ++ [m.event.timestamp], d ≤ m.event.timestamp := by
    intro d hd
    rcases List.mem_append.mp hd with hd | hd
    · exact hub d hd
    · simp only [List.mem_singleton] at hd
      rw [hd]
  exact execute_event_inv hcore hub'

lemma loopBody_inv {s : SimState} (h : Inv s) : Inv (loopBody s) := by
  unfold loopBody
  split
  · exact populate_inv h
  · cases hpop : popQ s.queue with
    | none => exact h
    | some pr =>
      obtain ⟨m, rest⟩ := pr
      cases hhd : s.trace.head? with
      | none =>
        simp only [hpop, hhd]
        refine stepDispatch_inv h hpop ?_
        intro te hte
        rw [hhd] at hte
        exact Option.noConfusion hte
      | some te =>
        simp only [hpop, hhd]
        by_cases hlt : te.timestamp < m.event.timestamp
        · rw [if_pos hlt]
          exact populate_inv h
        · rw [if_neg hlt]
          refine stepDispatch_inv h hpop ?_
          intro te' hte'
          rw [hhd] at hte'
          injection hte' with hte'
          rw [← hte']
          omega

lemma runLoop_inv : ∀ (fuel : Nat) (s : SimState), Inv s → Inv (runLoop fuel s) := by
  intro fuel
  induction fuel with
  | zero => intro s h; exact h
  | succ fuel ih =>
    intro s h
    show Inv (if loopDone s then s else runLoop fuel (loopBody s))
    split
    · exact h
    · exact ih _ (loopBody_inv h)

/-! ### Claim C1 (confirmed) -/

/-- C1: for every run of the simulation loop over a trace delivered in
non-decreasing timestamp order (the trace-reader contract, spec §6) and any
initial queue whose entries are keyed by their own events' timestamps (the
only kind of entry the engine ever pushes), the sequence of timestamps of
dispatched events — trace events, alarms and debug checkpoints merged — is
non-decreasing, and the `current_time` set at each dispatch is the last
entry of that non-decreasing log, regardless of how refill batches
partition the trace. -/
theorem run_dispatch_monotone (fuel : Nat) (trace : List QEvent) (q0 : List QEntry)
    (hsorted : trace.Pairwise (fun a b => a.timestamp ≤ b.timestamp))
    (hkeys : ∀ en ∈ q0, en.key_ts = en.event.timestamp) :
    (runLoop fuel ⟨trace, q0, none, [], [], [], []⟩).dispatched.Pairwise (· ≤ ·) ∧
    (runLoop fuel ⟨trace, q0, none, [], [], [], []⟩).current_time =
      (runLoop fuel ⟨trace, q0, none, [], [], [], []⟩).dispatched.getLast? := by
  have h0 : Inv ⟨trace, q0, none, [], [], [], []⟩ := by
    refine ⟨List.Pairwise.nil, ?_, ?_, hsorted, hkeys, rfl⟩
    · intro d hd
      exact absurd hd (List.not_mem_nil d)
    · intro d hd
      exact absurd hd (List.not_mem_nil d)
  obtain ⟨h1, h2, h3, h4, h5, h6⟩ := runLoop_inv fuel _ h0
  exact ⟨h1, h6⟩

/-- Witness for `run_dispatch_monotone`: a sorted three-event trace plus an
initial repeating alarm. -/
theorem run_dispatch_monotone_witness :
    (runLoop 10 ⟨[⟨1, 1, .other 0, 0, false⟩, ⟨2, 2, .other 0, 0, false⟩,
                  ⟨3, 2, .other 0, 0, false⟩],
                 [⟨⟨4, 2, .SIM_ALARM, 3, false⟩, 2, Priority.ALARM⟩],
                 none, [], [], [], []⟩).dispatched.Pairwise (· ≤ ·) ∧
    (runLoop 10 ⟨[⟨1, 1, .other 0, 0, false⟩, ⟨2, 2, .other 0, 0, false⟩,
                  ⟨3, 2, .other 0, 0, false⟩],
                 [⟨⟨4, 2, .SIM_ALARM, 3, false⟩, 2, Priority.ALARM⟩],
                 none, [], [], [], []⟩).current_time =
      (runLoop 10 ⟨[⟨1, 1, .other 0, 0, false⟩, ⟨2, 2, .other 0, 0, false⟩,
                    ⟨3, 2, .other 0, 0, false⟩],
                   [⟨⟨4, 2, .SIM_ALARM, 3, false⟩, 2, Priority.ALARM⟩],
                   none, [], [], [], []⟩).dispatched.getLast? :=
  run_dispatch_monotone 10
    [⟨1, 1, .other 0, 0, false⟩, ⟨2, 2, .other 0, 0, false⟩, ⟨3, 2, .other 0, 0, false⟩]
    [⟨⟨4, 2, .SIM_ALARM, 3, false⟩, 2, Priority.ALARM⟩] (by decide) (by decide)

/-! ### Claim C4 (confirmed) -/

/-- C4: in every run-loop iteration where the queue holds fewer than
`EVENT_QUEUE_THRESHOLD` (100) entries and the trace is not exhausted, the
iteration is exactly a refill: the engine pulls a batch of up to 100 events
off the trace, pushes each into the queue at priority class TRACE keyed by
that event's own timestamp, leaves the dispatch log and `current_time`
untouched, and restarts the loop on the refilled state without dispatching
anything. -/
theorem refill_iteration (fuel : Nat) (s : SimState)
    (hlen : s.queue.length < EVENT_QUEUE_THRESHOLD) (htr : s.trace ≠ []) :
    runLoop (fuel + 1) s = runLoop fuel (populate s) ∧
    (populate s).queue = s.queue ++ (s.trace.take EVENT_QUEUE_THRESHOLD).map
      (fun x => ⟨x, x.timestamp, Priority.TRACE⟩) ∧
    (populate s).trace = s.trace.drop EVENT_QUEUE_THRESHOLD ∧
    (populate s).dispatched = s.dispatched ∧
    (populate s).current_time = s.current_time := by
  refine ⟨?_, rfl, rfl, rfl, rfl⟩
  show (if loopDone s then s else runLoop fuel (loopBody s)) = runLoop fuel (populate s)
  have hdone : ¬(loopDone s = true) := by
    simp [loopDone, List.isEmpty_iff, htr]
  rw [if_neg hdone]
  have hcond : (decide (s.queue.length < EVENT_QUEUE_THRESHOLD) && !s.trace.isEmpty) = true := by
    simp [hlen, List.isEmpty_iff, htr]
  unfold loopBody
  rw [if_pos hcond]

/-- Witness for `refill_iteration`: a single-event trace and empty queue. -/
theorem refill_iteration_witness :
    runLoop 2 ⟨[⟨1, 4, .other 0, 0, false⟩], [], none, [], [], [], []⟩ =
      runLoop 1 (populate ⟨[⟨1, 4, .other 0, 0, false⟩], [], none, [], [], [], []⟩) ∧
    (populate ⟨[⟨1, 4, .other 0, 0, false⟩], [], none, [], [], [], []⟩).queue =
      [] ++ ([⟨1, 4, .other 0, 0, false⟩].take EVENT_QUEUE_THRESHOLD).map
        (fun x => ⟨x, x.timestamp, Priority.TRACE⟩) ∧
    (populate ⟨[⟨1, 4, .other 0, 0, false⟩], [], none, [], [], [], []⟩).trace =
      [⟨1, 4, .other 0, 0, false⟩].drop EVENT_QUEUE_THRESHOLD ∧
    (populate ⟨[⟨1, 4, .other 0, 0, false⟩], [], none, [], [], [], []⟩).dispatched = [] ∧
    (populate ⟨[⟨1, 4, .other 0, 0, false⟩], [], none, [], [], [], []⟩).current_time = none :=
  refill_iteration 1 ⟨[⟨1, 4, .other 0, 0, false⟩], [], none, [], [], [], []⟩
    (by decide) (by decide)

/-! ### Claim C5 (confirmed) -/

/-- C5: when the run loop dispatches an alarm-typed entry it invokes the
alarm's fire action directly (logged in `fired`) and broadcasts nothing; a
repeating alarm is re-pushed keyed by the timestamp the fire action
produced, at priority class ALARM — with the fire action advancing the
timestamp by `period` (spec §4.4, modelled in `QEvent.fire`), an alarm
dispatched at time T re-appears keyed at exactly T + period, hence at a
time ≥ T + period; a non-repeating alarm is never re-pushed, leaving the
queue equal to the popped remainder. -/
theorem alarm_dispatch (fuel : Nat) (s : SimState) (m : QEntry) (rest : List QEntry)
    (hfull : EVENT_QUEUE_THRESHOLD ≤ s.queue.length ∨ s.trace = [])
    (hpop : popQ s.queue = some (m, rest))
    (hla : ∀ te, s.trace.head? = some te → m.event.timestamp ≤ te.timestamp)
    (halarm : m.event.event_type = EventType.SIM_ALARM) :
    runLoop (fuel + 1) s = runLoop fuel (stepDispatch s m rest) ∧
    (stepDispatch s m rest).current_time = some m.event.timestamp ∧
    (stepDispatch s m rest).fired = s.fired ++ [m.event.id] ∧
    (stepDispatch s m rest).broadcastLog = s.broadcastLog ∧
    (stepDispatch s m rest).queue =
      rest ++ (if m.event.repeating then
        [⟨m.event.fire, m.event.timestamp + m.event.period, Priority.ALARM⟩] else []) := by
  have hq : s.queue ≠ [] := popQ_ne_nil hpop
  refine ⟨?_, ?_, ?_, ?_, ?_⟩
  · show (if loopDone s then s else runLoop fuel (loopBody s)) = _
    have hdone : ¬(loopDone s = true) := by
      simp [loopDone, List.isEmpty_iff, hq]
    rw [if_neg hdone]
    have hcond : ¬((decide (s.queue.length < EVENT_QUEUE_THRESHOLD) &&
        !s.trace.isEmpty) = true) := by
      rcases hfull with hfull | hfull
      · have hnl : ¬(s.queue.length < EVENT_QUEUE_THRESHOLD) := by omega
        simp [hnl]
      · simp [hfull]
    unfold loopBody
    rw [if_neg hcond]
    cases hhd : s.trace.head? with
    | none => simp only [hpop, hhd]
    | some te =>
      simp only [hpop, hhd]
      rw [if_neg (by have := hla te hhd; omega)]
  · simp [stepDispatch, execute_event, halarm]
    cases hrep : m.event.repeating <;> simp [QEvent.fire, hrep]
  · simp [stepDispatch, execute_event, halarm]
    cases hrep : m.event.repeating <;> simp [QEvent.fire, hrep]
  · simp [stepDispatch, execute_event, halarm]
    cases hrep : m.event.repeating <;> simp [QEvent.fire, hrep]
  · simp [stepDispatch, execute_event, halarm]
    cases hrep : m.event.repeating <;> simp [QEvent.fire, hrep]

/-- Witness for `alarm_dispatch`: a repeating alarm alone in the queue with
the trace exhausted. -/
theorem alarm_dispatch_witness :
    runLoop 4 ⟨[], [⟨⟨9, 6, .SIM_ALARM, 2, true⟩, 6, Priority.ALARM⟩],
               some 6, [6], [], [], []⟩ =
      runLoop 3 (stepDispatch ⟨[], [⟨⟨9, 6, .SIM_ALARM, 2, true⟩, 6, Priority.ALARM⟩],
        some 6, [6], [], [], []⟩ ⟨⟨9, 6, .SIM_ALARM, 2, true⟩, 6, Priority.ALARM⟩ []) ∧
    (stepDispatch ⟨[], [⟨⟨9, 6, .SIM_ALARM, 2, true⟩, 6, Priority.ALARM⟩],
        some 6, [6], [], [], []⟩ ⟨⟨9, 6, .SIM_ALARM, 2, true⟩, 6, Priority.ALARM⟩
        []).current_time = some 6 ∧
    (stepDispatch ⟨[], [⟨⟨9, 6, .SIM_ALARM, 2, true⟩, 6, Priority.ALARM⟩],
        some 6, [6], [], [], []⟩ ⟨⟨9, 6, .SIM_ALARM, 2, true⟩, 6, Priority.ALARM⟩
        []).fired = [] ++ [9] ∧
    (stepDispatch ⟨[], [⟨⟨9, 6, .SIM_ALARM, 2, true⟩, 6, Priority.ALARM⟩],
        some 6, [6], [], [], []⟩ ⟨⟨9, 6, .SIM_ALARM, 2, true⟩, 6, Priority.ALARM⟩
        []).broadcastLog = [] ∧
    (stepDispatch ⟨[], [⟨⟨9, 6, .SIM_ALARM, 2, true⟩, 6, Priority.ALARM⟩],
        some 6, [6], [], [], []⟩ ⟨⟨9, 6, .SIM_ALARM, 2, true⟩, 6, Priority.ALARM⟩
        []).queue = [] ++ (if (⟨9, 6, .SIM_ALARM, 2, true⟩ : QEvent).repeating then
          [⟨(⟨9, 6, .SIM_ALARM, 2, true⟩ : QEvent).fire, 6 + 2, Priority.ALARM⟩] else []) :=
  alarm_dispatch 3 ⟨[], [⟨⟨9, 6, .SIM_ALARM, 2, true⟩, 6, Priority.ALARM⟩],
      some 6, [6], [], [], []⟩ ⟨⟨9, 6, .SIM_ALARM, 2, true⟩, 6, Priority.ALARM⟩ []
    (Or.inr rfl) rfl (fun _ hte => Option.noConfusion hte) rfl

/-! ### Claim C9 (confirmed) -/

/-- C9: the alarm priority class (5) is strictly smaller than the trace
priority class (10) in the composite `(timestamp, priority_class)` sort key,
so while an alarm-class entry with timestamp `t` is in the queue, `pop`
never returns a trace-class entry with the same timestamp `t`: at equal
timestamps the alarm is popped and dispatched first. -/
theorem alarm_priority_beats_trace (q : List QEntry) (ea : QEvent) (t : Nat)
    (h : (⟨ea, t, Priority.ALARM⟩ : QEntry) ∈ q) :
    Priority.ALARM < Priority.TRACE ∧
    ∀ x rest, popQ q ≠ some (⟨x, t, Priority.TRACE⟩, rest) := by
  refine ⟨by decide, ?_⟩
  intro x rest hpop
  have hk := popQ_min hpop _ h
  simp only [keyLE, decide_eq_true_eq, Priority.ALARM, Priority.TRACE] at hk
  omega

/-- Witness for `alarm_priority_beats_trace`: a trace entry and an alarm
entry sharing timestamp 3. -/
theorem alarm_priority_beats_trace_witness :
    Priority.ALARM < Priority.TRACE ∧
    popQ [⟨⟨1, 3, .other 0, 0, false⟩, 3, Priority.TRACE⟩,
          ⟨⟨2, 3, .SIM_ALARM, 1, true⟩, 3, Priority.ALARM⟩] ≠
      some (⟨⟨1, 3, .other 0, 0, false⟩, 3, Priority.TRACE⟩,
            [⟨⟨2, 3, .SIM_ALARM, 1, true⟩, 3, Priority.ALARM⟩]) :=
  ⟨(alarm_priority_beats_trace
      [⟨⟨1, 3, .other 0, 0, false⟩, 3, Priority.TRACE⟩,
       ⟨⟨2, 3, .SIM_ALARM, 1, true⟩, 3, Priority.ALARM⟩]
      ⟨2, 3, .SIM_ALARM, 1, true⟩ 3 (by decide)).1,
   (alarm_priority_beats_trace
      [⟨⟨1, 3, .other 0, 0, false⟩, 3, Priority.TRACE⟩,
       ⟨⟨2, 3, .SIM_ALARM, 1, true⟩, 3, Priority.ALARM⟩]
      ⟨2, 3, .SIM_ALARM, 1, true⟩ 3 (by decide)).2
     ⟨1, 3, .other 0, 0, false⟩ [⟨⟨2, 3, .SIM_ALARM, 1, true⟩, 3, Priority.ALARM⟩]⟩

/-! ## Debug controller (`Simulator.__debug`, uamp_sim.py lines 198-231)

Operator input is a line of characters; commands are produced by Python's
`command.split(sep=' ')`, which splits on every single space and keeps
empty fields, and `int(...)` parses the `interval` argument.  Both are
modelled directly over character lists (the Lean library's string functions
are not used so that every definition evaluates by kernel reduction). -/

/-- The debug-relevant mutable state: `self.debug_interval` (an arbitrary
Python integer) and `self.verbose`. -/
structure DebugState where
  debug_interval : Int
  verbose : Bool
deriving DecidableEq

/-- Usage message printed at uamp_sim.py lines 214 and 216. -/
def usageInterval : String :=
  "Command Usage Error: interval command expects one numerical value"

/-- Usage message printed at uamp_sim.py line 226. -/
def usageVerboseArg : String :=
  "Command Usage Error: verbose command expects \x27on\x27 or \x27off\x27 for argument"

/-- Usage message printed at uamp_sim.py line 229. -/
def usageVerboseArity : String :=
  "Command Usage Error: verbose command expects at most one argument"

/-- Python `command.split(sep=' ')` (line 202): split on every single
space, keeping empty fields; the result is never empty. -/
def pySplit : List Char → List (List Char)
  | [] => [[]]
  | c :: rest =>
    if c = ' ' then [] :: pySplit rest
    else
      match pySplit rest with
      | [] => [[c]]
      | t :: ts => (c :: t) :: ts

def digitVal (c : Char) : Option Nat :=
  if c.isDigit then some (c.toNat - '0'.toNat) else none

def parseDigitsAux : List Char → Nat → Option Nat
  | [], acc => some acc
  | c :: rest, acc =>
    match digitVal c with
    | some d => parseDigitsAux rest (acc * 10 + d)
    | none => none

def parseDigits : List Char → Option Nat
  | [] => none
  | cs => parseDigitsAux cs 0

/-- Python `int(string)` (line 212), modelled for the numeric/non-numeric
distinction the controller relies on: an optional sign followed by at least
one decimal digit; anything else raises `ValueError`, i.e. `none`. -/
def pyInt : List Char → Option Int
  | '-' :: rest => (parseDigits rest).map (fun n => -(n : Int))
  | '+' :: rest => (parseDigits rest).map (fun n => (n : Int))
  | cs => (parseDigits cs).map (fun n => (n : Int))

/-- Outcome of handling one line of operator input in the debug loop: keep
prompting (with possibly updated state and printed output), resume the run
loop (empty line, line 231), or terminate the whole process
(`quit`/`exit`/`q`, line 208). -/
inductive DebugStep where
  | cont (st : DebugState) (out : List String)
  | resume (st : DebugState)
  | exitSim (out : List String)
deriving DecidableEq

/-- One iteration of the `while True` loop of `Simulator.__debug`
(lines 199-231): empty input resumes the run; otherwise the first token
selects the command and the remaining tokens are its arguments; an
unrecognized command is silently ignored and the loop re-prompts. -/
def debugStep (st : DebugState) (line : List Char) : DebugStep :=
  if line = [] then .resume st
  else
    match pySplit line with
    | [] => .cont st []
    | cmd :: args =>
      if cmd = "quit".data ∨ cmd = "exit".data ∨ cmd = "q".data then
        .exitSim ["Terminating Simulation"]
      else if cmd = "interval".data then
        match args with
        | [a] =>
          match pyInt a with
          | some n => .cont { st with debug_interval := n } []
          | none => .cont st [usageInterval]
        | _ => .cont st [usageInterval]
      else if cmd = "verbose".data then
        match args with
        | [] => .cont { st with verbose := true } []
        | [a] =>
          if a = "on".data then .cont { st with verbose := true } []
          else if a = "off".data then .cont { st with verbose := false } []
          else .cont st [usageVerboseArg]
        | _ => .cont st [usageVerboseArity]
      else .cont st []

/-- The malformed commands enumerated by the claim: `interval` with wrong
arity or a non-numeric argument, `verbose` with more than one argument or
an argument other than `on`/`off`. -/
def malformedDebugCommand (line : List Char) : Bool :=
  match pySplit line with
  | [] => false
  | cmd :: args =>
    if cmd = "interval".data then
      match args with
      | [a] => (pyInt a).isNone
      | _ => true
    else if cmd = "verbose".data then
      match args with
      | [] => false
      | [a] => !(decide (a = "on".data ∨ a = "off".data))
      | _ => true
    else false

/-! ### Claim C8 (confirmed) -/

/-- C8: every malformed debug command — wrong arity or a non-numeric
argument to `interval`, wrong arity or an unrecognized argument to
`verbose` — makes the controller print the corresponding usage message and
keep prompting with its state unchanged: the outcome is never `resume`
(leaving the debug loop), never `exitSim` (terminating the run), and the
`ValueError` from `int(...)` is caught rather than raised. -/
theorem debug_malformed_recoverable (st : DebugState) (line : List Char)
    (h : malformedDebugCommand line = true) :
    debugStep st line = .cont st [usageInterval] ∨
    debugStep st line = .cont st [usageVerboseArg] ∨
    debugStep st line = .cont st [usageVerboseArity] := by
  unfold malformedDebugCommand at h
  cases hsp : pySplit line with
  | nil =>
    simp only [hsp] at h
    exact Bool.noConfusion h
  | cons cmd args =>
    simp only [hsp] at h
    by_cases hcmd : cmd = "interval".data
    · subst hcmd
      have hline : line ≠ [] := by
        intro hl
        rw [hl] at hsp
        have h0 : pySplit [] = [[]] := rfl
        rw [h0] at hsp
        injection hsp with h1 h2
        exact absurd h1.symm (by decide)
      rw [if_pos rfl] at h
      unfold debugStep
      rw [if_neg hline]
      simp only [hsp]
      cases args with
      | nil => simp
      | cons a args2 =>
        cases args2 with
        | nil =>
          cases hp : pyInt a with
          | none => simp [hp]
          | some n => simp [hp] at h
        | cons b args3 => simp
    · rw [if_neg hcmd] at h
      by_cases hv : cmd = "verbose".data
      · subst hv
        rw [if_pos rfl] at h
        have hline : line ≠ [] := by
          intro hl
          rw [hl] at hsp
          have h0 : pySplit [] = [[]] := rfl
          rw [h0] at hsp
          injection hsp with h1 h2
          exact absurd h1.symm (by decide)
        unfold debugStep
        rw [if_neg hline]
        simp only [hsp]
        cases args with
        | nil => simp at h
        | cons a args2 =>
          cases args2 with
          | nil =>
            simp only [Bool.not_eq_true', decide_eq_false_iff_not, not_or] at h
            simp [h.1, h.2]
          | cons b args3 => simp
      · rw [if_neg hv] at h
        exact Bool.noConfusion h

/-- Witness for `debug_malformed_recoverable`: the command `interval x`
with a non-numeric argument. -/
theorem debug_malformed_recoverable_witness :
    debugStep ⟨1, false⟩ "interval x".data = .cont ⟨1, false⟩ [usageInterval] ∨
    debugStep ⟨1, false⟩ "interval x".data = .cont ⟨1, false⟩ [usageVerboseArg] ∨
    debugStep ⟨1, false⟩ "interval x".data = .cont ⟨1, false⟩ [usageVerboseArity] :=
  debug_malformed_recoverable ⟨1, false⟩ "interval x".data (by decide)

end UampSim
